import Mathlib

/-!
Verification of the GLL (Generic Linked List) library.

Shallow embedding of `src/gll.c` / `src/gll.h`.

Modelling conventions:
* `gll_data_t` is `uintptr_t` (64-bit); we model it as `Nat`, with values
  understood to range over `[0, 2^64)`.  `(gll_data_t)(-1)` is `2^64 - 1`.
* `gll_status_t` / `gll_result_t` are signed integers, modelled as `Int`.
* A well-formed doubly linked chain is represented by the sequence of its
  node values from head to tail (`List Data`).  A possibly-NULL
  `gll_list_t*` is `Option (List Data)`, `none` being the NULL pointer.
* The pointer-level node structure (needed for the structural-invariant
  claim about `head`/`tail`/`next`/`prev`) is modelled separately below by
  an explicit heap of nodes (`GState`).
* The list's `comparator` field is passed as an explicit parameter
  `c : Data → Data → Int`; the `deallocator` field is modelled by a
  Boolean "a deallocator is present" together with the list of values the
  cleanup loop passes to it, in call order.
* Mutexes are single-threaded no-ops and are not modelled.
-/

abbrev Data := Nat

abbrev Comparator := Data → Data → Int

/-- Constant `UINTPTR_MAX` for the 64-bit `uintptr_t` behind `gll_data_t`;
`(gll_data_t)(-1)` converts to this value. -/
def UINTPTR_MAX : Nat := 2 ^ 64 - 1

/-- Model of `_gll_comparator_data` (gll.c:650-662), the default comparator used when
the configuration supplies none: raw value ordering. -/
def _gll_comparator_data (data1 data2 : Data) : Int :=
  if data1 > data2 then 1
  else if data1 < data2 then -1
  else 0

/-- Interpret the low 32 bits of a `gll_data_t` as a signed `int32_t`
(the effect of the C cast `(int32_t) data`). -/
def toInt32 (d : Data) : Int :=
  let r : Nat := d % 2 ^ 32
  if r < 2 ^ 31 then (r : Int) else (r : Int) - 2 ^ 32

/-- Wrap an integer to the signed 32-bit range, as two's-complement
`int32_t` arithmetic does on overflow. -/
def wrap32 (x : Int) : Int :=
  let r := x % 2 ^ 32
  if r < 2 ^ 31 then r else r - 2 ^ 32

/-- Model of `gll_comparator_int32` (gll.c:579-582): returns
`(int32_t) data1 - (int32_t) data2`, the subtraction performed in 32-bit
signed arithmetic (which wraps on overflow). -/
def gll_comparator_int32 (data1 data2 : Data) : Int :=
  wrap32 (toInt32 data1 - toInt32 data2)

/-- Model of `gll_append` (gll.c:135-160) at sequence level: NULL list fails with
`-1`; otherwise the new node becomes the tail. -/
def gll_append : Option (List Data) → Data → Option (List Data) × Int
  | none, _ => (none, -1)
  | some l, d => (some (l ++ [d]), 0)

/-- Model of `gll_push` (gll.c:162-187): NULL list fails with `-1`; otherwise the
new node becomes the head. -/
def gll_push : Option (List Data) → Data → Option (List Data) × Int
  | none, _ => (none, -1)
  | some l, d => (some (d :: l), 0)

/-- Model of `gll_pop` (gll.c:189-224): returns 0 on NULL or empty list, otherwise
unlinks the head node and returns its value. -/
def gll_pop : Option (List Data) → Option (List Data) × Data
  | none => (none, 0)
  | some [] => (some [], 0)
  | some (x :: xs) => (some xs, x)

/-- Model of `gll_trim` (gll.c:226-261): returns 0 on NULL or empty list, otherwise
unlinks the tail node and returns its value. -/
def gll_trim : Option (List Data) → Option (List Data) × Data
  | none => (none, 0)
  | some [] => (some [], 0)
  | some (x :: xs) => (some (x :: xs).dropLast, (x :: xs).getLastD 0)

/-- Model of `gll_size` (gll.c:263-272): 0 for a NULL list. -/
def gll_size : Option (List Data) → Nat
  | none => 0
  | some l => l.length

/-- Model of `gll_peek` (gll.c:274-284): `node ? node->data : 0` on the head. -/
def gll_peek : Option (List Data) → Data
  | none => 0
  | some l => l.headD 0

/-- Model of `gll_peek_last` (gll.c:286-296): `node ? node->data : 0` on the tail. -/
def gll_peek_last : Option (List Data) → Data
  | none => 0
  | some l => l.getLastD 0

/-- The body of `gll_clear`'s loop (gll.c:410-429), collecting the values
passed to the deallocator, in order.  The deallocator is invoked only when
one is present *and* the node's data is truthy:
`if (list->deallocator && node->data)`. -/
def gll_clear_calls (dealloc : Bool) : List Data → List Data
  | [] => []
  | x :: xs =>
    if dealloc = true ∧ x ≠ 0 then x :: gll_clear_calls dealloc xs
    else gll_clear_calls dealloc xs

/-- Model of `gll_clear` (gll.c:405-435) at sequence level: NULL fails with `-1`;
otherwise every node is freed and `size` becomes 0.  Result: new list
value, status, and the values passed to the deallocator.  (The mid-loop
`!node` consistency check cannot fire on a well-formed chain.  The
pointer-level fact that `head`/`tail` are *not* reset is captured by the
heap model below.) -/
def gll_clear (dealloc : Bool) : Option (List Data) → Option (List Data) × Int × List Data
  | none => (none, -1, [])
  | some l => (some [], 0, gll_clear_calls dealloc l)

/-- Model of `gll_destroy` (gll.c:126-133): runs `gll_clear`, propagating its
failure; returns status and the deallocator calls made. -/
def gll_destroy (dealloc : Bool) (l : Option (List Data)) : Int × List Data :=
  let r := gll_clear dealloc l
  if r.2.1 = 0 then (0, r.2.2) else (-1, r.2.2)

/-- Iterator cursor: `some k` means `current` points at the node of index
`k` (head-to-tail); `none` is the NULL "before start" cursor. -/
abbrev Cursor := Option Nat

/-- Model of `gll_iterator_forward` (gll.c:492-528) on a well-formed list `l`:
returns the new cursor, the status (`1` = found, `0` = not found) and the
value written through the out-parameter (`none` when the C code leaves it
untouched, as in the empty-list branch). -/
def gll_iterator_forward (l : List Data) (cur : Cursor) : Cursor × Bool × Option Data :=
  if l.length = 0 then (none, false, none)
  else
    match cur with
    | none => (some 0, true, some (l.getD 0 0))
    | some k =>
      if k + 1 < l.length then (some (k + 1), true, some (l.getD (k + 1) 0))
      else (some k, false, some 0)

/-- Model of `gll_iterator_backward` (gll.c:530-566), symmetric to forward. -/
def gll_iterator_backward (l : List Data) (cur : Cursor) : Cursor × Bool × Option Data :=
  if l.length = 0 then (none, false, none)
  else
    match cur with
    | none => (some (l.length - 1), true, some (l.getD (l.length - 1) 0))
    | some k =>
      if k = 0 then (some k, false, some 0)
      else (some (k - 1), true, some (l.getD (k - 1) 0))

/-- Cursor after `k` forward calls starting from a reset (NULL) cursor
(`gll_iterator_reset`, gll.c:568-577, sets `current = NULL`). -/
def iterCursorAfter (l : List Data) : Nat → Cursor
  | 0 => none
  | k + 1 => (gll_iterator_forward l (iterCursorAfter l k)).1

/-- The walk `while ((index >= i++) && gll_iterator_forward(iterator, &dump));`
of `_gll_insert`/`_gll_remove` (gll.c:676-677, 707-708): makes up to `m`
forward calls, stopping early if one reports not-found. -/
def walkF (l : List Data) : Nat → Cursor → Cursor
  | 0, cur => cur
  | m + 1, cur =>
    let r := gll_iterator_forward l cur
    if r.2.1 then walkF l m r.1 else r.1

/-- The walk `while ((index <= i--) && gll_iterator_backward(iterator, &dump));`
(gll.c:671-672, 702-703): up to `m` backward calls, stopping early on
not-found.  For an interior index the counter `i` runs from `size - 1`
down while `index <= i`, i.e. exactly `size - index` calls are made. -/
def walkB (l : List Data) : Nat → Cursor → Cursor
  | 0, cur => cur
  | m + 1, cur =>
    let r := gll_iterator_backward l cur
    if r.2.1 then walkB l m r.1 else r.1

/-- Model of `_gll_insert` (gll.c:664-692): walk to the node currently at `index`
(from the head if `backward` is false, making `index + 1` forward calls;
from the tail otherwise, making `size - index` backward calls), then
splice the new node just before it. -/
def _gll_insert (l : List Data) (index : Nat) (d : Data) (backward : Bool) : List Data :=
  let cur := if backward then walkB l (l.length - index) none else walkF l (index + 1) none
  match cur with
  | some k => l.take k ++ d :: l.drop k
  | none => l

/-- Model of `_gll_remove` (gll.c:694-729): same walk, then unlink the node at the
cursor and return its data. -/
def _gll_remove (l : List Data) (index : Nat) (backward : Bool) : List Data × Data :=
  let cur := if backward then walkB l (l.length - index) none else walkF l (index + 1) none
  match cur with
  | some k => (l.take k ++ l.drop (k + 1), l.getD k 0)
  | none => (l, 0)

/-- Model of `gll_insert` (gll.c:329-365): NULL list or `index > size` fail with
`-1`; index 0 delegates to `gll_push`, index `size` to `gll_append`,
first half (`size/2 >= index`) walks from the head, second half from the
tail. -/
def gll_insert : Option (List Data) → Nat → Data → Option (List Data) × Int
  | none, _, _ => (none, -1)
  | some l, index, d =>
    if index > l.length then (some l, -1)
    else if index = 0 then (some (d :: l), 0)
    else if index = l.length then (some (l ++ [d]), 0)
    else if index ≤ l.length / 2 then (some (_gll_insert l index d false), 0)
    else (some (_gll_insert l index d true), 0)

/-- Model of `gll_remove` (gll.c:367-403): NULL list or `index >= size` return
`(gll_data_t)(-1)`, i.e. `UINTPTR_MAX`; index 0 delegates to `gll_pop`,
index `size - 1` to `gll_trim`, otherwise half-distance walk. -/
def gll_remove : Option (List Data) → Nat → Option (List Data) × Data
  | none, _ => (none, UINTPTR_MAX)
  | some l, index =>
    if index ≥ l.length then (some l, UINTPTR_MAX)
    else if index = 0 then gll_pop (some l)
    else if index = l.length - 1 then gll_trim (some l)
    else if index ≤ l.length / 2 then
      (some (_gll_remove l index false).1, (_gll_remove l index false).2)
    else
      (some (_gll_remove l index true).1, (_gll_remove l index true).2)

/-- The scan loop of `gll_find` (gll.c:311-321): advance the iterator
while it reports found, stopping at the first element for which
`comparator(data, eval) == 0`; the index counts non-matching elements.
The fuel starts at `size + 1`, enough for every possible iteration. -/
def findLoop (c : Comparator) (d : Data) (l : List Data) : Nat → Cursor → Nat → Nat
  | 0, _, idx => idx
  | f + 1, cur, idx =>
    let r := gll_iterator_forward l cur
    if r.2.1 then
      if c d (r.2.2.getD 0) = 0 then idx else findLoop c d l f r.1 (idx + 1)
    else idx

/-- Model of `gll_find` (gll.c:298-327): 0 for a NULL or empty list, otherwise the
iterator scan above starting from a fresh (NULL-cursor) iterator. -/
def gll_find (c : Comparator) : Option (List Data) → Data → Nat
  | none, _ => 0
  | some [], _ => 0
  | some (x :: xs), d => findLoop c d (x :: xs) ((x :: xs).length + 1) none 0

/-- The slow/fast midpoint loop of `_gll_split_list` (gll.c:736-745):
number of `slow = slow->next` advances when `fast` starts on the given
chain (`head->next`).  Each iteration moves `fast` twice and `slow` once,
stopping when `fast` runs off the end. -/
def _gll_slow_steps : List Data → Nat
  | [] => 0
  | [_] => 0
  | _ :: _ :: rest => 1 + _gll_slow_steps rest

/-- Model of `_gll_split_list` (gll.c:731-751): cut the chain after `slow`, i.e.
after index `1 + slow-steps` counted from the head; returns the two
halves.  (The source returns `mid` and truncates the first half in place;
here both halves are returned.) -/
def _gll_split_list (l : List Data) : List Data × List Data :=
  match l with
  | [] => ([], [])
  | _ :: rest =>
    let mid := 1 + _gll_slow_steps rest
    (l.take mid, l.drop mid)

/-- Model of `_gll_sorted_merge` (gll.c:753-776): merge two sorted chains, taking
the left head when `comparator(a->data, b->data) <= 0`. -/
def _gll_sorted_merge (c : Comparator) : List Data → List Data → List Data
  | [], b => b
  | a :: as, [] => a :: as
  | x :: xs, y :: ys =>
    if c x y ≤ 0 then x :: _gll_sorted_merge c xs (y :: ys)
    else y :: _gll_sorted_merge c (x :: xs) ys
termination_by a b => a.length + b.length

theorem _gll_slow_steps_eq : ∀ l : List Data, _gll_slow_steps l = l.length / 2
  | [] => rfl
  | [_] => by simp [_gll_slow_steps]
  | _ :: _ :: rest => by
    rw [_gll_slow_steps, _gll_slow_steps_eq rest]
    simp [List.length_cons]
    omega

theorem _gll_split_list_fst (x : Data) (rest : List Data) :
    (_gll_split_list (x :: rest)).1 = (x :: rest).take (((x :: rest).length + 1) / 2) := by
  have h : 1 + _gll_slow_steps rest = ((x :: rest).length + 1) / 2 := by
    rw [_gll_slow_steps_eq]; simp [List.length_cons]; omega
  simp [_gll_split_list, h]

theorem _gll_split_list_snd (x : Data) (rest : List Data) :
    (_gll_split_list (x :: rest)).2 = (x :: rest).drop (((x :: rest).length + 1) / 2) := by
  have h : 1 + _gll_slow_steps rest = ((x :: rest).length + 1) / 2 := by
    rw [_gll_slow_steps_eq]; simp [List.length_cons]; omega
  simp [_gll_split_list, h]

/-- Model of `_gll_merge_sort` (gll.c:778-787): chains of length < 2 are returned
unchanged; otherwise split at the midpoint, sort both halves recursively
and merge. -/
def _gll_merge_sort (c : Comparator) : List Data → List Data
  | [] => []
  | [a] => [a]
  | a :: b :: xs =>
    _gll_sorted_merge c
      (_gll_merge_sort c (_gll_split_list (a :: b :: xs)).1)
      (_gll_merge_sort c (_gll_split_list (a :: b :: xs)).2)
termination_by l => l.length
decreasing_by
  · rw [_gll_split_list_fst]
    simp [List.length_cons, List.length_take]
    omega
  · rw [_gll_split_list_snd]
    simp [List.length_cons, List.length_drop]
    omega

/-- The list produced by `gll_sort` on a non-NULL list: unchanged when
`size < 2` (gll.c:442-446), otherwise the merge sort of the chain. -/
def gllSortList (c : Comparator) (l : List Data) : List Data :=
  if l.length < 2 then l else _gll_merge_sort c l

/-- Model of `gll_sort` (gll.c:437-461).  Note the NULL-list branch returns `0`,
the same status as success. -/
def gll_sort (c : Comparator) : Option (List Data) → Option (List Data) × Int
  | none => (none, 0)
  | some l => (some (gllSortList c l), 0)

/-!
Pointer-level heap model.

For the structural invariant (`head`/`tail`/`next`/`prev`/`size`) the
sequence abstraction is too coarse, so the node chain is modelled as an
explicit heap: allocated nodes addressed by `Nat`, `Option Nat` playing
the role of possibly-NULL node pointers.
-/

/-- A `gll_node_t` (gll.c:41-46). -/
structure GNode where
  data : Nat
  next : Option Nat
  prev : Option Nat
deriving DecidableEq

/-- The allocated nodes: an association list from addresses to nodes. -/
abbrev Heap := List (Nat × GNode)

def heapGet (h : Heap) (a : Nat) : Option GNode :=
  match h.find? (fun p => p.1 == a) with
  | some p => some p.2
  | none => none

def heapSet (h : Heap) (a : Nat) (n : GNode) : Heap :=
  h.map (fun p => if p.1 = a then (a, n) else p)

def heapErase (h : Heap) (a : Nat) : Heap :=
  h.filter (fun p => p.1 != a)

/-- Assignment `node->next = nx` (no-op on a dangling address). -/
def setNext (h : Heap) (a : Nat) (nx : Option Nat) : Heap :=
  match heapGet h a with
  | some nd => heapSet h a { nd with next := nx }
  | none => h

/-- Assignment `node->prev = pv` (no-op on a dangling address). -/
def setPrev (h : Heap) (a : Nat) (pv : Option Nat) : Heap :=
  match heapGet h a with
  | some nd => heapSet h a { nd with prev := pv }
  | none => h

/-- A `gll_list_t` (gll.c:48-56) with its node chain. -/
structure GState where
  heap : Heap
  nextAddr : Nat
  head : Option Nat
  tail : Option Nat
  size : Nat
deriving DecidableEq

/-- Model of `gll_create` (gll.c:72-103): `calloc` zeroes the struct, so the list
starts with empty head/tail and size 0. -/
def gll_create_state : GState := ⟨[], 0, none, none, 0⟩

/-- Model of `gll_append` (gll.c:135-160) on the heap model, following the source
line by line: allocate the node with `next = prev = NULL`, set its data,
make it the tail; if a head exists, link the old tail's `next` to it,
else it becomes the head; finally `node->prev = old tail` and `size++`. -/
def gll_append_state (s : GState) (d : Nat) : GState :=
  let a := s.nextAddr
  let h1 : Heap := (a, ⟨d, none, none⟩) :: s.heap
  let oldTail := s.tail
  let h2 :=
    match s.head, oldTail with
    | some _, some t => setNext h1 t (some a)
    | some _, none => h1
    | none, _ => h1
  let head' := match s.head with | some hd => some hd | none => some a
  let h3 := setPrev h2 a oldTail
  ⟨h3, a + 1, head', some a, s.size + 1⟩

/-- The freeing loop of `gll_clear` (gll.c:410-429): walk `size` nodes
from `head` following `next`, freeing each; `none` signals the `!node`
(broken chain) early `-1` return. -/
def clearLoop (h : Heap) : Nat → Option Nat → Option Heap
  | 0, _ => some h
  | n + 1, cur =>
    match cur with
    | none => none
    | some a =>
      match heapGet h a with
      | none => none
      | some nd => clearLoop (heapErase h a) n nd.next

/-- Model of `gll_clear` (gll.c:405-435) on the heap model.  After the loop the
source sets `list->size = 0` and returns — `list->head` and `list->tail`
are left untouched. -/
def gll_clear_state (s : GState) : GState × Int :=
  match clearLoop s.heap s.size s.head with
  | some h' => ({ s with heap := h', size := 0 }, 0)
  | none => (s, -1)

/-- Addresses reachable from a node pointer following `next`, stopping at
NULL or at a dangling address (`fuel` bounds the walk, which suffices as
soon as it exceeds the heap size). -/
def chainFrom (h : Heap) : Nat → Option Nat → List Nat
  | 0, _ => []
  | f + 1, cur =>
    match cur with
    | none => []
    | some a =>
      match heapGet h a with
      | none => []
      | some nd => a :: chainFrom h f nd.next

/-- Every chain step `a, b` has `b.prev == a`. -/
def prevLinked (h : Heap) : List Nat → Bool
  | [] => true
  | [_] => true
  | a :: b :: rest =>
    (match heapGet h b with
     | some nd => nd.prev = some a
     | none => false) && prevLinked h (b :: rest)

/-- The structural invariant of the spec: `size` equals the number of
nodes reachable from `head` to `tail`; `head == empty` iff `tail == empty`
iff `size == 0`; consecutive nodes are doubly linked (`next`/`prev`
inverse); `head->prev == NULL`; `tail->next == NULL`; and the chain from
`head` ends at `tail`. -/
def gllWF (s : GState) : Bool :=
  let ch := chainFrom s.heap (s.heap.length + 1) s.head
  decide (ch.length = s.size) &&
  decide ((s.head = none) ↔ s.size = 0) &&
  decide ((s.tail = none) ↔ s.size = 0) &&
  prevLinked s.heap ch &&
  (match s.head with
   | none => true
   | some a => match heapGet s.heap a with
     | some nd => decide (nd.prev = none)
     | none => false) &&
  (match s.tail with
   | none => true
   | some a => match heapGet s.heap a with
     | some nd => decide (nd.next = none)
     | none => false) &&
  (match ch.getLast? with
   | none => decide (s.tail = none)
   | some a => decide (s.tail = some a))

/-!
Helper lemmas.
-/

theorem gll_clear_calls_eq_filter (l : List Data) :
    gll_clear_calls true l = l.filter (fun x => decide (x ≠ 0)) := by
  induction l with
  | nil => rfl
  | cons x xs ih =>
    by_cases hx : x = 0 <;> simp [gll_clear_calls, hx, ih]

/-!
Claim theorems.
-/

/-- C1 (code_bug evidence): starting from a freshly created list, one
`gll_append` yields a state satisfying the structural invariant, but
`gll_clear` then frees the node and resets `size` to 0 while leaving
`head` and `tail` pointing at the freed node's address — so after a
successful clear (status 0) the invariant `head == empty iff size == 0`
is violated, contradicting the claim that every public operation
(including clear) preserves it. -/
theorem gll_clear_breaks_structural_invariant :
    gllWF (gll_append_state gll_create_state 1) = true ∧
    (gll_clear_state (gll_append_state gll_create_state 1)).2 = 0 ∧
    (gll_clear_state (gll_append_state gll_create_state 1)).1.size = 0 ∧
    (gll_clear_state (gll_append_state gll_create_state 1)).1.head = some 0 ∧
    (gll_clear_state (gll_append_state gll_create_state 1)).1.tail = some 0 ∧
    heapGet (gll_clear_state (gll_append_state gll_create_state 1)).1.heap 0 = none ∧
    gllWF (gll_clear_state (gll_append_state gll_create_state 1)).1 = false := by
  decide

/-- C9 (code_bug evidence): `gll_comparator_int32` computes the
difference in wrapping 32-bit arithmetic, so for `data1 = 0x80000000`
(`int32` value `-2^31`) and `data2 = 1` it returns `2^31 - 1 > 0`
although the first operand orders strictly before the second — the
header's contract (`negative if data1 < data2`) requires a negative
result. -/
theorem gll_comparator_int32_overflow :
    toInt32 (2 ^ 31) = -(2 ^ 31) ∧
    toInt32 1 = 1 ∧
    toInt32 (2 ^ 31) < toInt32 1 ∧
    gll_comparator_int32 (2 ^ 31) 1 = 2 ^ 31 - 1 ∧
    0 < gll_comparator_int32 (2 ^ 31) 1 := by
  decide

/-- C5 (counterexample): clearing the one-element list holding the value
0 with a deallocator present invokes the deallocator zero times, so the
multiset of values passed to it differs from the multiset of stored
values. -/
theorem gll_clear_deallocator_skips_zero :
    (gll_clear true (some [0])).2.2 = [] ∧
    ((gll_clear true (some [0])).2.2 : Multiset Data) ≠ (([0] : List Data) : Multiset Data) := by
  decide

/-- C5 (amended): with a deallocator present, `gll_clear` (and
`gll_destroy`, which calls it) passes to the deallocator exactly the
nonzero stored values, in head-to-tail order; nodes storing 0 are
skipped.  Consequently, when no stored value is 0 the multiset passed
equals the multiset stored. -/
theorem gll_clear_deallocator_calls (l : List Data) :
    (gll_clear true (some l)).2.2 = l.filter (fun x => decide (x ≠ 0)) ∧
    (gll_destroy true (some l)).2 = l.filter (fun x => decide (x ≠ 0)) ∧
    ((∀ x ∈ l, x ≠ 0) →
      ((gll_clear true (some l)).2.2 : Multiset Data) = (l : Multiset Data)) := by
  refine ⟨gll_clear_calls_eq_filter l, ?_, ?_⟩
  · simpa [gll_destroy, gll_clear] using gll_clear_calls_eq_filter l
  · intro h
    have hfl : l.filter (fun x => decide (x ≠ 0)) = l :=
      List.filter_eq_self.mpr (fun x hx => by simpa using h x hx)
    have h2 : (gll_clear true (some l)).2.2 = l := by
      rw [show (gll_clear true (some l)).2.2 = gll_clear_calls true l from rfl,
        gll_clear_calls_eq_filter, hfl]
    rw [h2]

/-- Witness for C5's amended theorem at `l = [3, 5]`. -/
theorem gll_clear_deallocator_calls_witness :
    ((gll_clear true (some [3, 5])).2.2 : Multiset Data) = (([3, 5] : List Data) : Multiset Data) :=
  (gll_clear_deallocator_calls [3, 5]).2.2 (by decide)

/-- C7 (counterexample): the list `[0]` has nonzero size although both
`gll_peek` and `gll_peek_last` return the empty sentinel 0, refuting the
claimed equivalence. -/
theorem gll_peek_sentinel_ambiguous :
    gll_size (some [0]) ≠ 0 ∧ gll_peek (some [0]) = 0 ∧ gll_peek_last (some [0]) = 0 := by
  decide

/-- C7 (amended): if `size = 0` then both peeks return the sentinel 0;
the converse equivalence holds for every list that does not store the
value 0. -/
theorem gll_peek_sentinel_spec (l : List Data) :
    (gll_size (some l) = 0 → gll_peek (some l) = 0 ∧ gll_peek_last (some l) = 0) ∧
    ((0 : Data) ∉ l →
      (gll_size (some l) = 0 ↔ gll_peek (some l) = 0 ∧ gll_peek_last (some l) = 0)) := by
  cases l with
  | nil => simp [gll_size, gll_peek, gll_peek_last]
  | cons x xs =>
    have hpeek : gll_peek (some (x :: xs)) = x := rfl
    constructor
    · intro h
      simp [gll_size] at h
    · intro h0
      have hx : x ≠ 0 := fun hx => h0 (by simp [hx])
      constructor
      · intro h
        simp [gll_size] at h
      · rintro ⟨h1, -⟩
        exact absurd (hpeek ▸ h1) hx

/-- Witness for C7's amended theorem at `l = [7]`. -/
theorem gll_peek_sentinel_spec_witness :
    gll_size (some [7]) = 0 ↔ gll_peek (some [7]) = 0 ∧ gll_peek_last (some [7]) = 0 :=
  (gll_peek_sentinel_spec [7]).2 (by decide)

/-- C10: `gll_remove` on a NULL list or an out-of-range index returns
`(gll_data_t)(-1)`, i.e. the all-bits-set value `2^64 - 1`, which differs
from the sentinel 0 returned by `gll_pop`/`gll_trim` on an empty list and
coincides with a representable payload (removing an element that stores
`UINTPTR_MAX` succeeds with the very same return value). -/
theorem gll_remove_failure_value :
    (∀ i, gll_remove none i = (none, UINTPTR_MAX)) ∧
    (∀ (l : List Data) (i : Nat), l.length ≤ i → gll_remove (some l) i = (some l, UINTPTR_MAX)) ∧
    UINTPTR_MAX = 2 ^ 64 - 1 ∧
    UINTPTR_MAX ≠ 0 ∧
    gll_pop (some []) = (some [], 0) ∧
    gll_trim (some []) = (some [], 0) ∧
    gll_remove (some [UINTPTR_MAX]) 0 = (some [], UINTPTR_MAX) := by
  refine ⟨fun i => rfl, fun l i h => ?_, rfl, by decide, rfl, rfl, by decide⟩
  simp only [gll_remove]
  rw [if_pos (show i ≥ l.length from h)]

/-- Witness for C10 at the concrete out-of-range input `([1, 2], 5)`. -/
theorem gll_remove_failure_value_witness :
    gll_remove (some [1, 2]) 5 = (some [1, 2], UINTPTR_MAX) :=
  gll_remove_failure_value.2.1 [1, 2] 5 (by decide)

/-- C6: every mutation applied to a NULL list returns its documented
failure indicator and leaves the (absent) list unchanged (`-1` for
append/push/insert/clear/destroy, the sentinel 0 for pop/trim,
`(gll_data_t)(-1)` for remove), and `gll_insert` with `index > size`
resp. `gll_remove` with `index >= size` fail the same way leaving the
list value, and hence its size, head, tail and element sequence,
identical. -/
theorem gll_invalid_argument_noop :
    (∀ d, gll_append none d = (none, -1)) ∧
    (∀ d, gll_push none d = (none, -1)) ∧
    gll_pop none = (none, 0) ∧
    gll_trim none = (none, 0) ∧
    (∀ i d, gll_insert none i d = (none, -1)) ∧
    (∀ i, gll_remove none i = (none, UINTPTR_MAX)) ∧
    (∀ b, gll_clear b none = (none, -1, [])) ∧
    (∀ b, gll_destroy b none = (-1, [])) ∧
    (∀ (l : List Data) (i : Nat) (d : Data), l.length < i →
      gll_insert (some l) i d = (some l, -1)) ∧
    (∀ (l : List Data) (i : Nat), l.length ≤ i →
      gll_remove (some l) i = (some l, UINTPTR_MAX)) := by
  refine ⟨fun d => rfl, fun d => rfl, rfl, rfl, fun i d => rfl, fun i => rfl,
    fun b => rfl, fun b => by cases b <;> rfl, fun l i d h => ?_, fun l i h => ?_⟩
  · simp only [gll_insert]
    rw [if_pos (show i > l.length from h)]
  · simp only [gll_remove]
    rw [if_pos (show i ≥ l.length from h)]

/-- Witness for C6 at the concrete inputs `insert([1], 5, 7)` and
`remove([1], 5)`. -/
theorem gll_invalid_argument_noop_witness :
    gll_insert (some [1]) 5 7 = (some [1], -1) ∧
    gll_remove (some [1]) 5 = (some [1], UINTPTR_MAX) :=
  ⟨gll_invalid_argument_noop.2.2.2.2.2.2.2.2.1 [1] 5 7 (by decide),
   gll_invalid_argument_noop.2.2.2.2.2.2.2.2.2 [1] 5 (by decide)⟩

theorem iterF_nil (cur : Cursor) : gll_iterator_forward [] cur = (none, false, none) := rfl

theorem iterF_start {l : List Data} (h : l ≠ []) :
    gll_iterator_forward l none = (some 0, true, some (l.getD 0 0)) := by
  simp [gll_iterator_forward, List.length_eq_zero, h]

theorem iterF_step {l : List Data} {k : Nat} (h : k + 1 < l.length) :
    gll_iterator_forward l (some k) = (some (k + 1), true, some (l.getD (k + 1) 0)) := by
  have h0 : l.length ≠ 0 := by omega
  simp [gll_iterator_forward, h0, h]

theorem iterF_last {l : List Data} {k : Nat} (h0 : l ≠ []) (h : l.length ≤ k + 1) :
    gll_iterator_forward l (some k) = (some k, false, some 0) := by
  have h1 : l.length ≠ 0 := by
    simpa [List.length_eq_zero] using h0
  have h2 : ¬ k + 1 < l.length := by omega
  simp [gll_iterator_forward, h1, h2]

theorem iterB_start {l : List Data} (h : l ≠ []) :
    gll_iterator_backward l none =
      (some (l.length - 1), true, some (l.getD (l.length - 1) 0)) := by
  simp [gll_iterator_backward, List.length_eq_zero, h]

theorem iterB_step {l : List Data} {k : Nat} (h : k ≠ 0) (hk : k < l.length) :
    gll_iterator_backward l (some k) = (some (k - 1), true, some (l.getD (k - 1) 0)) := by
  have h0 : l.length ≠ 0 := by omega
  simp [gll_iterator_backward, h0, h]

theorem iterCursorAfter_lt (l : List Data) : ∀ k, k < l.length → iterCursorAfter l (k + 1) = some k
  | 0, h => by
    have hne : l ≠ [] := by
      intro he; rw [he] at h; simp at h
    simp [iterCursorAfter, iterF_start hne]
  | k + 1, h => by
    rw [iterCursorAfter, iterCursorAfter_lt l k (by omega), iterF_step h]

theorem iterCursorAfter_ge (l : List Data) (hne : l ≠ []) :
    ∀ k, l.length ≤ k → iterCursorAfter l k = some (l.length - 1) := by
  intro k hk
  induction k with
  | zero =>
    have : l.length = 0 := by omega
    exact absurd (List.length_eq_zero.mp this) hne
  | succ k ih =>
    by_cases hlt : l.length ≤ k
    · rw [iterCursorAfter, ih hlt, iterF_last hne (by omega)]
    · have hkl : k = l.length - 1 := by omega
      have : k < l.length := by omega
      rw [iterCursorAfter_lt l k this, hkl]

/-- C8: starting from a reset iterator on a list of size `n`, the first
`n` forward calls report found and yield the element values in
head-to-tail order; every later call reports not-found, writes the
sentinel 0 and leaves the cursor parked on the tail node; on an empty
list a forward call resets the cursor to NULL and reports not-found. -/
theorem gll_iterator_forward_spec (l : List Data) :
    (∀ k, k < l.length →
      gll_iterator_forward l (iterCursorAfter l k) = (some k, true, some (l.getD k 0)) ∧
      iterCursorAfter l (k + 1) = some k) ∧
    (l ≠ [] → ∀ k, l.length ≤ k →
      iterCursorAfter l k = some (l.length - 1) ∧
      gll_iterator_forward l (iterCursorAfter l k) = (some (l.length - 1), false, some 0)) ∧
    (∀ cur, gll_iterator_forward [] cur = (none, false, none)) := by
  refine ⟨fun k hk => ⟨?_, iterCursorAfter_lt l k hk⟩, fun hne k hk => ?_, iterF_nil⟩
  · match k, hk with
    | 0, hk =>
      have hne : l ≠ [] := by
        intro he; rw [he] at hk; simp at hk
      rw [show iterCursorAfter l 0 = none from rfl, iterF_start hne]
    | k + 1, hk =>
      rw [iterCursorAfter_lt l k (by omega), iterF_step hk]
  · refine ⟨iterCursorAfter_ge l hne k hk, ?_⟩
    rw [iterCursorAfter_ge l hne k hk,
      iterF_last hne (by have := List.length_pos.mpr hne; omega)]

/-- Witness for C8 on the two-element list `[5, 7]`: both elements are
produced in order, and the third and later calls report not-found with
the cursor still on the tail. -/
theorem gll_iterator_forward_spec_witness :
    gll_iterator_forward [5, 7] (iterCursorAfter [5, 7] 0) = (some 0, true, some 5) ∧
    gll_iterator_forward [5, 7] (iterCursorAfter [5, 7] 1) = (some 1, true, some 7) ∧
    iterCursorAfter [5, 7] 3 = some 1 ∧
    gll_iterator_forward [5, 7] (iterCursorAfter [5, 7] 3) = (some 1, false, some 0) :=
  ⟨((gll_iterator_forward_spec [5, 7]).1 0 (by decide)).1,
   ((gll_iterator_forward_spec [5, 7]).1 1 (by decide)).1,
   ((gll_iterator_forward_spec [5, 7]).2.1 (by decide) 3 (by decide)).1,
   ((gll_iterator_forward_spec [5, 7]).2.1 (by decide) 3 (by decide)).2⟩

theorem walkF_succ (l : List Data) (m : Nat) (cur : Cursor) :
    walkF l (m + 1) cur =
      (if (gll_iterator_forward l cur).2.1 then walkF l m (gll_iterator_forward l cur).1
       else (gll_iterator_forward l cur).1) := rfl

theorem walkB_succ (l : List Data) (m : Nat) (cur : Cursor) :
    walkB l (m + 1) cur =
      (if (gll_iterator_backward l cur).2.1 then walkB l m (gll_iterator_backward l cur).1
       else (gll_iterator_backward l cur).1) := rfl

theorem walkF_some (l : List Data) : ∀ m k, k + m < l.length → walkF l m (some k) = some (k + m)
  | 0, k, _ => rfl
  | m + 1, k, h => by
    have ih := walkF_some l m (k + 1) (by omega)
    rw [show k + 1 + m = k + (m + 1) by omega] at ih
    rw [walkF_succ, iterF_step (show k + 1 < l.length by omega)]
    simpa using ih

theorem walkF_from_none (l : List Data) (i : Nat) (h : i < l.length) :
    walkF l (i + 1) none = some i := by
  have hne : l ≠ [] := by
    intro he; rw [he] at h; simp at h
  have h0 := walkF_some l i 0 (by omega)
  rw [Nat.zero_add] at h0
  rw [walkF_succ, iterF_start hne]
  simpa using h0

theorem walkB_some (l : List Data) : ∀ m k, m ≤ k → k < l.length → walkB l m (some k) = some (k - m)
  | 0, k, _, _ => rfl
  | m + 1, k, hm, hk => by
    have ih := walkB_some l m (k - 1) (by omega) (by omega)
    rw [show k - 1 - m = k - (m + 1) by omega] at ih
    rw [walkB_succ, iterB_step (show k ≠ 0 by omega) hk]
    simpa using ih

theorem walkB_from_none (l : List Data) (i : Nat) (h1 : 1 ≤ i) (h2 : i < l.length) :
    walkB l (l.length - i) none = some i := by
  have hne : l ≠ [] := by
    intro he; rw [he] at h2; simp at h2
  obtain ⟨m, hm⟩ : ∃ m, l.length - i = m + 1 := ⟨l.length - i - 1, by omega⟩
  have hb := walkB_some l m (l.length - 1) (by omega) (by omega)
  rw [show l.length - 1 - m = i by omega] at hb
  rw [hm, walkB_succ, iterB_start hne]
  simpa using hb

/-- Lemma: `gll_insert` on a valid index is exactly the sequence splice at that
index, with success status 0. -/
theorem gll_insert_eq (l : List Data) (i : Nat) (v : Data) (h : i ≤ l.length) :
    gll_insert (some l) i v = (some (l.take i ++ v :: l.drop i), 0) := by
  simp only [gll_insert]
  rw [if_neg (show ¬ i > l.length by omega)]
  by_cases h0 : i = 0
  · subst h0; simp
  · rw [if_neg h0]
    by_cases hn : i = l.length
    · subst hn
      rw [if_pos rfl]
      simp
    · rw [if_neg hn]
      have hil : i < l.length := by omega
      by_cases hhalf : i ≤ l.length / 2
      · rw [if_pos hhalf]
        simp only [_gll_insert]
        rw [if_neg (by simp), walkF_from_none l i hil]
      · rw [if_neg hhalf]
        simp only [_gll_insert]
        simp only [if_true]
        rw [walkB_from_none l i (by omega) hil]

/-- Lemma: `gll_remove` on a valid index deletes exactly the element at that
index and returns its value. -/
theorem gll_remove_eq (l : List Data) (i : Nat) (h : i < l.length) :
    gll_remove (some l) i = (some (l.take i ++ l.drop (i + 1)), l.getD i 0) := by
  simp only [gll_remove]
  rw [if_neg (show ¬ i ≥ l.length by omega)]
  by_cases h0 : i = 0
  · subst h0
    rw [if_pos rfl]
    cases l with
    | nil => simp at h
    | cons x xs => simp [gll_pop]
  · rw [if_neg h0]
    by_cases hl : i = l.length - 1
    · rw [if_pos hl]
      cases l with
      | nil => simp at h
      | cons x xs =>
        have hdrop : (x :: xs).drop (i + 1) = [] := by
          apply List.drop_eq_nil_of_le
          simp only [List.length_cons] at h hl ⊢
          omega
        simp only [gll_trim, Prod.mk.injEq, Option.some.injEq]
        refine ⟨?_, ?_⟩
        · rw [List.dropLast_eq_take, ← hl, hdrop, List.append_nil]
        · rw [List.getLastD_eq_getLast?, List.getLast?_eq_getElem?, ← hl]
          simp
    · rw [if_neg hl]
      have hi1 : 1 ≤ i := by omega
      by_cases hhalf : i ≤ l.length / 2
      · rw [if_pos hhalf]
        simp only [_gll_remove]
        rw [if_neg (by simp), walkF_from_none l i h]
      · rw [if_neg hhalf]
        simp only [_gll_remove]
        simp only [if_true]
        rw [walkB_from_none l i hi1 h]

theorem take_cons_drop_eq_insertIdx (v : Data) :
    ∀ (i : Nat) (l : List Data), i ≤ l.length →
      l.take i ++ v :: l.drop i = List.insertIdx i v l
  | 0, l, _ => by simp [List.insertIdx]
  | i + 1, [], h => by simp at h
  | i + 1, x :: xs, h => by
    simp only [List.take_succ_cons, List.drop_succ_cons, List.cons_append,
      List.insertIdx_succ_cons]
    rw [take_cons_drop_eq_insertIdx v i xs (by simpa using h)]

/-- C3: for every list and every index `i ≤ size`, `gll_insert(l, i, v)`
succeeds, and an immediate `gll_remove(·, i)` returns `v` and restores
the original list (hence its size and element sequence). -/
theorem gll_insert_remove_roundtrip (l : List Data) (i : Nat) (v : Data) (h : i ≤ l.length) :
    (gll_insert (some l) i v).2 = 0 ∧
    gll_remove (gll_insert (some l) i v).1 i = (some l, v) := by
  rw [gll_insert_eq l i v h]
  refine ⟨rfl, ?_⟩
  show gll_remove (some (l.take i ++ v :: l.drop i)) i = (some l, v)
  rw [take_cons_drop_eq_insertIdx v i l h]
  have hlen : (List.insertIdx i v l).length = l.length + 1 :=
    List.length_insertIdx i l h
  rw [gll_remove_eq _ i (by omega)]
  rw [← List.eraseIdx_eq_take_drop_succ, List.eraseIdx_insertIdx]
  have hget : (List.insertIdx i v l).getD i 0 = v := by
    rw [List.getD_eq_getElem?_getD, List.getElem?_eq_getElem (by omega),
      List.getElem_insertIdx_self l v i h]
    rfl
  rw [hget]

/-- Witness for C3 at `l = [10, 20, 30]`, `i = 2`, `v = 99`. -/
theorem gll_insert_remove_roundtrip_witness :
    (gll_insert (some [10, 20, 30]) 2 99).2 = 0 ∧
    gll_remove (gll_insert (some [10, 20, 30]) 2 99).1 2 = (some [10, 20, 30], 99) :=
  gll_insert_remove_roundtrip [10, 20, 30] 2 99 (by decide)

theorem findLoop_succ (c : Comparator) (d : Data) (l : List Data) (f : Nat) (cur : Cursor)
    (idx : Nat) :
    findLoop c d l (f + 1) cur idx =
      (if (gll_iterator_forward l cur).2.1 then
        (if c d ((gll_iterator_forward l cur).2.2.getD 0) = 0 then idx
         else findLoop c d l f (gll_iterator_forward l cur).1 (idx + 1))
       else idx) := rfl

theorem findLoop_from (c : Comparator) (d : Data) (l : List Data) :
    ∀ f k idx, k < l.length → l.length - k ≤ f →
      findLoop c d l f (some k) idx =
        idx + (l.drop (k + 1)).findIdx (fun x => decide (c d x = 0)) := by
  intro f
  induction f with
  | zero => intro k idx hk hf; omega
  | succ f ih =>
    intro k idx hk hf
    by_cases hk1 : k + 1 < l.length
    · rw [findLoop_succ, iterF_step hk1]
      show (if c d (l.getD (k + 1) 0) = 0 then idx
            else findLoop c d l f (some (k + 1)) (idx + 1)) =
        idx + (l.drop (k + 1)).findIdx (fun x => decide (c d x = 0))
      have hdrop : l.drop (k + 1) = l.getD (k + 1) 0 :: l.drop (k + 2) := by
        rw [List.drop_eq_getElem_cons hk1]
        congr 1
        rw [List.getD_eq_getElem?_getD, List.getElem?_eq_getElem hk1]
        rfl
      rw [hdrop, List.findIdx_cons]
      by_cases hc : c d (l.getD (k + 1) 0) = 0
      · rw [if_pos hc]
        have htrue : decide (c d (l.getD (k + 1) 0) = 0) = true := by simpa using hc
        rw [htrue]
        simp only [cond_true]
        omega
      · rw [if_neg hc, ih (k + 1) (idx + 1) hk1 (by omega)]
        have h12 : k + 1 + 1 = k + 2 := rfl
        rw [h12]
        have hfalse : decide (c d (l.getD (k + 1) 0) = 0) = false := by simpa using hc
        rw [hfalse]
        simp only [cond_false]
        omega
    · have hne : l ≠ [] := by
        intro he; rw [he] at hk; simp at hk
      rw [findLoop_succ, iterF_last hne (by omega)]
      show idx = idx + (l.drop (k + 1)).findIdx (fun x => decide (c d x = 0))
      have hdrop : l.drop (k + 1) = [] := List.drop_eq_nil_of_le (by omega)
      simp [hdrop]

/-- Lemma: `gll_find` computes `List.findIdx` of the predicate
`comparator d · == 0`. -/
theorem gll_find_eq (c : Comparator) (l : List Data) (d : Data) :
    gll_find c (some l) d = l.findIdx (fun x => decide (c d x = 0)) := by
  cases l with
  | nil => rfl
  | cons x xs =>
    show findLoop c d (x :: xs) ((x :: xs).length + 1) none 0 = _
    rw [findLoop_succ, iterF_start (List.cons_ne_nil x xs)]
    show (if c d x = 0 then 0
          else findLoop c d (x :: xs) (x :: xs).length (some 0) 1) =
      (x :: xs).findIdx (fun y => decide (c d y = 0))
    rw [List.findIdx_cons]
    by_cases hc : c d x = 0
    · rw [if_pos hc]
      have htrue : decide (c d x = 0) = true := by simpa using hc
      rw [htrue]
      simp only [cond_true]
    · rw [if_neg hc,
        findLoop_from c d (x :: xs) (x :: xs).length 0 1 (by simp) (by simp)]
      have hfalse : decide (c d x = 0) = false := by simpa using hc
      rw [hfalse]
      simp only [cond_false, List.drop_succ_cons, List.drop_zero]
      omega

/-- C4: `gll_find` returns the smallest index whose element compares
equal (`comparator(value, element) == 0`) to the probe, and returns
`size` when no element matches or the list is empty. -/
theorem gll_find_correct (c : Comparator) (l : List Data) (d : Data) :
    gll_find c (some l) d ≤ l.length ∧
    (gll_find c (some l) d < l.length → c d (l.getD (gll_find c (some l) d) 0) = 0) ∧
    (∀ j, j < gll_find c (some l) d → c d (l.getD j 0) ≠ 0) ∧
    ((∀ x ∈ l, c d x ≠ 0) → gll_find c (some l) d = l.length) ∧
    (l = [] → gll_find c (some l) d = l.length) := by
  rw [gll_find_eq c l d]
  refine ⟨List.findIdx_le_length _, fun hr => ?_, fun j hj => ?_, fun hall => ?_, fun he => ?_⟩
  · have := @List.findIdx_getElem _ (fun x => decide (c d x = 0)) l hr
    rw [List.getD_eq_getElem?_getD, List.getElem?_eq_getElem hr]
    simpa using this
  · have hjl : j < l.length := Nat.lt_of_lt_of_le hj (List.findIdx_le_length _)
    have := List.not_of_lt_findIdx hj
    rw [List.getD_eq_getElem?_getD, List.getElem?_eq_getElem hjl]
    simpa using this
  · exact List.findIdx_eq_length_of_false (fun x hx => by simpa using hall x hx)
  · subst he; rfl

/-- Witness for C4 on the spec's concrete scenario: in `[5, 3, 8, 1]`
with the default comparator, `find(8)` returns index 2, and a missing
value yields `size = 4`. -/
theorem gll_find_correct_witness :
    gll_find _gll_comparator_data (some [5, 3, 8, 1]) 8 ≤ 4 ∧
    _gll_comparator_data 8 ([5, 3, 8, 1].getD (gll_find _gll_comparator_data (some [5, 3, 8, 1]) 8) 0) = 0 ∧
    gll_find _gll_comparator_data (some [5, 3, 8, 1]) 9 = 4 :=
  ⟨(gll_find_correct _gll_comparator_data [5, 3, 8, 1] 8).1,
   (gll_find_correct _gll_comparator_data [5, 3, 8, 1] 8).2.1 (by decide),
   (gll_find_correct _gll_comparator_data [5, 3, 8, 1] 9).2.2.2.1 (by decide)⟩

/-- The Boolean "less or equal" induced by a comparator:
`comparator(a, b) <= 0`. -/
def gllLe (c : Comparator) (x y : Data) : Bool := decide (c x y ≤ 0)

theorem gll_merge_eq_core (c : Comparator) :
    ∀ a b, _gll_sorted_merge c a b = List.merge a b (gllLe c)
  | [], b => by simp [_gll_sorted_merge]
  | x :: xs, [] => by simp [_gll_sorted_merge]
  | x :: xs, y :: ys => by
    rw [List.cons_merge_cons]
    by_cases h : c x y ≤ 0
    · rw [if_pos (show gllLe c x y = true by simpa [gllLe] using h)]
      simp only [_gll_sorted_merge]
      rw [if_pos h, gll_merge_eq_core c xs (y :: ys)]
    · rw [if_neg (show ¬ gllLe c x y = true by simpa [gllLe] using h)]
      simp only [_gll_sorted_merge]
      rw [if_neg h, gll_merge_eq_core c (x :: xs) ys]
termination_by a b => a.length + b.length

theorem gll_merge_sort_eq_core (c : Comparator) :
    ∀ l, _gll_merge_sort c l = List.mergeSort l (gllLe c)
  | [] => by simp [_gll_merge_sort, List.mergeSort]
  | [a] => by simp [_gll_merge_sort, List.mergeSort]
  | a :: b :: xs => by
    have e1 : (_gll_split_list (a :: b :: xs)).1 =
        (List.splitInTwo ⟨a :: b :: xs, rfl⟩).1.1 := by
      rw [_gll_split_list_fst, List.splitInTwo_fst]
    have e2 : (_gll_split_list (a :: b :: xs)).2 =
        (List.splitInTwo ⟨a :: b :: xs, rfl⟩).2.1 := by
      rw [_gll_split_list_snd, List.splitInTwo_snd]
    have l1 : (_gll_split_list (a :: b :: xs)).1.length < xs.length + 1 + 1 := by
      rw [_gll_split_list_fst]
      simp [List.length_cons]
      omega
    have l2 : (_gll_split_list (a :: b :: xs)).2.length < xs.length + 1 + 1 := by
      rw [_gll_split_list_snd]
      simp [List.length_cons]
      omega
    simp only [_gll_merge_sort]
    rw [gll_merge_eq_core,
      gll_merge_sort_eq_core c (_gll_split_list (a :: b :: xs)).1,
      gll_merge_sort_eq_core c (_gll_split_list (a :: b :: xs)).2, e1, e2]
    conv_rhs => rw [List.mergeSort]
termination_by l => l.length
decreasing_by
  · simpa using l1
  · simpa using l2

theorem gllSortList_eq_core (c : Comparator) (l : List Data) :
    gllSortList c l = List.mergeSort l (gllLe c) := by
  by_cases h2 : l.length < 2
  · rw [gllSortList, if_pos h2]
    cases l with
    | nil => simp [List.mergeSort]
    | cons x xs =>
      cases xs with
      | nil => simp [List.mergeSort]
      | cons y ys =>
        simp only [List.length_cons] at h2
        omega
  · rw [gllSortList, if_neg h2, gll_merge_sort_eq_core]

/-- C2: for a comparator inducing a total preorder, `gll_sort` succeeds
and produces a reordering of the list that is ascending under the
comparator, permutes the original elements, is stable (any pair in
original order whose left element compares `<= 0` against the right one —
in particular any tie — stays in that order), leaves a sorted list
unchanged, and is a no-op when `size < 2`. -/
theorem gll_sort_correct (c : Comparator) (l : List Data)
    (htrans : ∀ x y z : Data, c x y ≤ 0 → c y z ≤ 0 → c x z ≤ 0)
    (htotal : ∀ x y : Data, c x y ≤ 0 ∨ c y x ≤ 0) :
    gll_sort c (some l) = (some (gllSortList c l), 0) ∧
    (gllSortList c l).Pairwise (fun x y => c x y ≤ 0) ∧
    (gllSortList c l).Perm l ∧
    (∀ a b : Data, List.Sublist [a, b] l → c a b ≤ 0 →
      List.Sublist [a, b] (gllSortList c l)) ∧
    (l.Pairwise (fun x y => c x y ≤ 0) → gllSortList c l = l) ∧
    (l.length < 2 → gllSortList c l = l) := by
  have hts : ∀ a b e : Data, gllLe c a b → gllLe c b e → gllLe c a e := by
    intro a b e hab hbe
    simp only [gllLe, decide_eq_true_eq] at hab hbe ⊢
    exact htrans a b e hab hbe
  have hto : ∀ a b : Data, gllLe c a b || gllLe c b a := by
    intro a b
    rcases htotal a b with h | h <;> simp [gllLe, h]
  have heq := gllSortList_eq_core c l
  refine ⟨rfl, ?_, ?_, ?_, ?_, fun h2 => by rw [gllSortList, if_pos h2]⟩
  · rw [heq]
    exact (List.sorted_mergeSort hts hto l).imp
      (fun h => by simpa [gllLe] using h)
  · rw [heq]
    exact List.mergeSort_perm l (gllLe c)
  · intro a b hsub hab
    rw [heq]
    exact List.pair_sublist_mergeSort hts hto (by simpa [gllLe] using hab) hsub
  · intro hsorted
    rw [heq]
    exact List.mergeSort_of_sorted
      (hsorted.imp (fun h => by simpa [gllLe] using h))

theorem gll_comparator_data_le (x y : Data) : _gll_comparator_data x y ≤ 0 ↔ x ≤ y := by
  unfold _gll_comparator_data
  split_ifs with h1 h2
  · constructor
    · intro hc; norm_num at hc
    · intro hc; exact absurd hc (Nat.not_le.mpr h1)
  · constructor
    · intro hc; exact Nat.le_of_lt h2
    · intro hc; norm_num
  · constructor
    · intro hc; exact Nat.le_of_not_lt h1
    · intro hc; norm_num

theorem gll_comparator_data_trans :
    ∀ x y z : Data, _gll_comparator_data x y ≤ 0 → _gll_comparator_data y z ≤ 0 →
      _gll_comparator_data x z ≤ 0 := by
  intro x y z h1 h2
  rw [gll_comparator_data_le] at h1 h2 ⊢
  exact Nat.le_trans h1 h2

theorem gll_comparator_data_total :
    ∀ x y : Data, _gll_comparator_data x y ≤ 0 ∨ _gll_comparator_data y x ≤ 0 := by
  intro x y
  rw [gll_comparator_data_le, gll_comparator_data_le]
  exact Nat.le_total x y

/-- Witness for C2 with the default comparator on the spec's concrete
scenario `[5, 3, 8, 1]`. -/
theorem gll_sort_correct_witness :
    (gllSortList _gll_comparator_data [5, 3, 8, 1]).Pairwise
      (fun x y => _gll_comparator_data x y ≤ 0) ∧
    (gllSortList _gll_comparator_data [5, 3, 8, 1]).Perm [5, 3, 8, 1] ∧
    gll_sort _gll_comparator_data (some [5, 3, 8, 1]) =
      (some (gllSortList _gll_comparator_data [5, 3, 8, 1]), 0) :=
  ⟨(gll_sort_correct _gll_comparator_data [5, 3, 8, 1]
      gll_comparator_data_trans gll_comparator_data_total).2.1,
   (gll_sort_correct _gll_comparator_data [5, 3, 8, 1]
      gll_comparator_data_trans gll_comparator_data_total).2.2.1,
   (gll_sort_correct _gll_comparator_data [5, 3, 8, 1]
      gll_comparator_data_trans gll_comparator_data_total).1⟩
